import Mathlib

/-!
Shallow embedding of the core data transforms of the event-knowledge dashboard
(`utils_data.py`, `graph_module.py`, `geo_module.py`, `timeline_module.py`).

Conventions of the embedding:
* Python floats are modelled as rationals (`ℚ`); the claims under study are
  about the algebraic structure of the computations, not rounding.
* Python dicts with a fixed key set become structures with `Option` fields
  (`none` = key absent); open-ended dicts become association lists looked up
  with `lookupKey` (Python dict keys are unique, so first-match lookup agrees).
* Code that can raise returns `Except Unit _`.
* `pandas` operations are modelled at the level of the row list:
  `groupby(k)` produces one group per distinct key (pandas drops only
  null keys, which cannot arise here since every row stores a string),
  and `df.dropna(subset=["date"])` on a `DataFrame` built from an empty
  row list raises `KeyError` because the frame has no `date` column.
-/

set_option maxHeartbeats 1000000

namespace EventDash

/-- A calendar date as produced by `datetime.strptime`. -/
structure DateT where
  year : Nat
  month : Nat
  day : Nat
deriving DecidableEq, Repr

/-- Gregorian leap-year rule used by `datetime` for day-of-month validation. -/
def isLeap (y : Nat) : Bool :=
  (y % 4 == 0 && y % 100 != 0) || (y % 400 == 0)

/-- Number of days of month `m` in year `y` (as validated by `datetime`). -/
def daysInMonth (y m : Nat) : Nat :=
  if m = 2 then (if isLeap y then 29 else 28)
  else if m = 4 ∨ m = 6 ∨ m = 9 ∨ m = 11 then 30
  else 31

/-- A `%d` / `%m` field of `strptime`: one or two digits. -/
def parseField2 (s : String) : Option Nat :=
  if (s.length = 1 ∨ s.length = 2) ∧ s.toList.all Char.isDigit then s.toNat?
  else none

/-- A `%Y` field of `strptime`: exactly four digits. -/
def parseYear4 (s : String) : Option Nat :=
  if s.length = 4 ∧ s.toList.all Char.isDigit then s.toNat?
  else none

/-- Models `datetime.strptime(s, "%d/%m/%Y")`: day and month are 1–2 digit
numbers in range, the year is a 4-digit number ≥ 1, the day must exist in the
month, and nothing else may appear in the string; any violation raises in
Python, i.e. yields `none` here. -/
def strptimeDMY (s : String) : Option DateT :=
  match s.splitOn "/" with
  | [ds, ms, ys] =>
    match parseField2 ds, parseField2 ms, parseYear4 ys with
    | some d, some m, some y =>
      if 1 ≤ d ∧ 1 ≤ m ∧ m ≤ 12 ∧ 1 ≤ y ∧ d ≤ daysInMonth y m then
        some ⟨y, m, d⟩
      else none
    | _, _, _ => none
  | _ => none

/-- The date-descriptor dict of a raw event (`kind` / `date` / `start` / `end`
keys, each possibly absent).  The Python key `end` is spelled `end_`. -/
structure DateDesc where
  kind : Option String
  date : Option String
  start : Option String
  end_ : Option String
deriving DecidableEq, Repr

/-- `parse_event_date` of `utils_data.py`: dispatch on `kind`; `"single"`
parses the `date` field, `"range"` parses the `end` field; a missing field or
parse failure is caught by the `try/except` and yields `none`, as does any
other kind. -/
def parse_event_date (d : DateDesc) : Option DateT :=
  match d.kind with
  | some "single" => d.date.bind strptimeDMY
  | some "range" => d.end_.bind strptimeDMY
  | _ => none

/-- One element of an event's `entities` list. -/
structure Entity where
  name : Option String
  tag : Option String
deriving DecidableEq, Repr

/-- A raw event record.  `event_classifications` maps a category name to its
list of labels. -/
structure Event where
  event_title : Option String
  event_location : Option String
  event_date_occured : Option DateDesc
  event_date_occurred : Option DateDesc
  entities : List Entity
  event_classifications : List (String × List String)
deriving DecidableEq, Repr

/-- First-match association-list lookup; models Python `dict` access. -/
def lookupKey {κ α : Type} [DecidableEq κ] : List (κ × α) → κ → Option α
  | [], _ => none
  | (k', v) :: rest, k => if k' = k then some v else lookupKey rest k

/-- The value stored under a taxonomy label: either a dict with an optional
numeric `sentiment` field, or a non-dict value (on which attribute access
would raise). -/
inductive TaxLabel where
  | record (sentiment : Option ℚ)
  | notDict
deriving DecidableEq

/-- The value stored under a taxonomy category: a dict of labels, or a
non-dict value. -/
inductive TaxNode where
  | dict (entries : List (String × TaxLabel))
  | notDict
deriving DecidableEq

abbrev Taxonomy := List (String × TaxNode)

/-- `taxonomy_sentiment_lookup` of `utils_data.py`.  A missing or non-dict
category falls through both `isinstance` guards to `0.0`; an exact label hit
reads that record's `sentiment` (default `0`); `node[label].get` on a
non-dict label value raises `AttributeError` (modelled as `Except.error`);
otherwise a dict `"other"` entry supplies the fallback, and everything else
resolves to `0.0`. -/
def taxonomy_sentiment_lookup (taxonomy : Taxonomy) (category label : String) :
    Except Unit ℚ :=
  match lookupKey taxonomy category with
  | some (TaxNode.dict node) =>
    match lookupKey node label with
    | some (TaxLabel.record s) => Except.ok (s.getD 0)
    | some TaxLabel.notDict => Except.error ()
    | none =>
      match lookupKey node "other" with
      | some (TaxLabel.record s) => Except.ok (s.getD 0)
      | _ => Except.ok 0
  | _ => Except.ok 0

/-- Arithmetic mean of a list of rationals, `0` when empty (the
`sum(xs)/len(xs) if xs else 0.0` idiom). -/
def qmean (l : List ℚ) : ℚ :=
  if l.length = 0 then 0 else l.sum / l.length

/-- The `(category, label)` pairs enumerated by `event_sentiment`'s nested
loops over `event_classifications`. -/
def classificationPairs (ev : Event) : List (String × String) :=
  ev.event_classifications.flatMap (fun cl => cl.2.map (fun lab => (cl.1, lab)))

/-- The `sentiments` list accumulated by `event_sentiment`'s loop; a raise
inside `taxonomy_sentiment_lookup` aborts the loop. -/
def resolveAll (taxonomy : Taxonomy) : List (String × String) → Except Unit (List ℚ)
  | [] => Except.ok []
  | p :: rest =>
    match taxonomy_sentiment_lookup taxonomy p.1 p.2 with
    | Except.error e => Except.error e
    | Except.ok s =>
      match resolveAll taxonomy rest with
      | Except.error e => Except.error e
      | Except.ok ss => Except.ok (s :: ss)

/-- `event_sentiment` of `utils_data.py`: resolve every `(category, label)`
pair and average, `0.0` when there are no classifications.  A raise inside
`taxonomy_sentiment_lookup` propagates. -/
def event_sentiment (ev : Event) (taxonomy : Taxonomy) : Except Unit ℚ :=
  match resolveAll taxonomy (classificationPairs ev) with
  | Except.error e => Except.error e
  | Except.ok sentiments => Except.ok (qmean sentiments)

/-- `extract_event_types` of `utils_data.py`: concatenate all labels across
all classification categories, keeping duplicates and order. -/
def extract_event_types (ev : Event) : List String :=
  ev.event_classifications.flatMap (fun cl => cl.2)

/-- `flatten_events` of `utils_data.py`. -/
def flatten_events (events_json : List (List Event)) : List Event :=
  events_json.flatMap id

/-- The Python truthiness filter `if e.get("name")`: keeps only values that
are present and non-empty. -/
def truthyStr (o : Option String) : Option String :=
  o.bind (fun s => if s = "" then none else some s)

/-- A normalized row, one per raw event, as assembled by `build_dataframe`
(the unused `_raw` back-pointer is not modelled). -/
structure Row where
  event_title : String
  event_location : String
  date : Option DateT
  entity_names : List String
  entity_tags : List String
  sentiment : ℚ
  event_types : List String
deriving DecidableEq, Repr

/-- The row dict built for one raw event inside `build_dataframe`'s loop.
`ev.get("event_date_occured") or ev.get("event_date_occurred") or {}` is the
fallback chain over the misspelled and the correct key. -/
def rowOfEvent (ev : Event) (taxonomy : Taxonomy) : Except Unit Row :=
  match event_sentiment ev taxonomy with
  | Except.error e => Except.error e
  | Except.ok s =>
    Except.ok {
      event_title := ev.event_title.getD ""
      event_location := ev.event_location.getD ""
      date := parse_event_date
        ((ev.event_date_occured.orElse (fun _ => ev.event_date_occurred)).getD
          ⟨none, none, none, none⟩)
      entity_names := ev.entities.filterMap (fun e => truthyStr e.name)
      entity_tags := ev.entities.filterMap (fun e => truthyStr e.tag)
      sentiment := s
      event_types := extract_event_types ev
    }

/-- The row-building loop of `build_dataframe`, in source order; a raise at
any event aborts the whole call. -/
def mapRows (evs : List Event) (taxonomy : Taxonomy) : Except Unit (List Row) :=
  match evs with
  | [] => Except.ok []
  | ev :: rest =>
    match rowOfEvent ev taxonomy with
    | Except.error e => Except.error e
    | Except.ok r =>
      match mapRows rest taxonomy with
      | Except.error e => Except.error e
      | Except.ok rs => Except.ok (r :: rs)

/-- `build_dataframe` of `utils_data.py`.  After the loop the code runs
`pd.DataFrame(rows).dropna(subset=["date"])`: when `rows` is empty the frame
has no columns at all and `dropna` raises `KeyError("date")` — modelled as
`Except.error`; otherwise rows whose `date` is `None` are dropped. -/
def build_dataframe (events_json : List (List Event)) (taxonomy : Taxonomy) :
    Except Unit (List Row) :=
  match mapRows (flatten_events events_json) taxonomy with
  | Except.error e => Except.error e
  | Except.ok rows =>
    if rows.isEmpty then Except.error ()
    else Except.ok (rows.filter (fun r => r.date.isSome))

/-! ### graph_module.py -/

/-- `itertools.combinations(l, 2)`, in iteration order. -/
def combinations2 {α : Type} : List α → List (α × α)
  | [] => []
  | a :: rest => rest.map (fun b => (a, b)) ++ combinations2 rest

/-- `sorted(set(ents))`: the distinct elements in increasing order. -/
def sortedSet (l : List String) : List String :=
  List.insertionSort (· ≤ ·) l.dedup

/-- `G.add_node(name)` guarded by `G.has_node(name)`: appends a fresh node. -/
def addNode (nodes : List String) (n : String) : List String :=
  if n ∈ nodes then nodes else nodes ++ [n]

/-- The attribute dict of one co-occurrence edge.  `mean_sentiment` is only
meaningful after the final pass of `build_cooccurrence_graph`; until then it
holds `0`. -/
structure EdgeData where
  weight : Nat
  sentiments : List ℚ
  event_types : List String
  event_titles : List String
  mean_sentiment : ℚ
deriving DecidableEq, Repr

/-- An undirected graph in insertion order: a node list and an association
list of edges keyed by the (sorted) entity pair. -/
structure Graph where
  nodes : List String
  edges : List ((String × String) × EdgeData)
deriving DecidableEq, Repr

/-- The `G.add_edge(a, b, weight=1, ...)` branch: a fresh edge for one row. -/
def initEdge (row : Row) : EdgeData :=
  { weight := 1
    sentiments := [row.sentiment]
    event_types := row.event_types
    event_titles := [row.event_title]
    mean_sentiment := 0 }

/-- The `G.has_edge(a, b)` branch: increment the weight and append this row's
sentiment, types and title. -/
def bumpEdge (d : EdgeData) (row : Row) : EdgeData :=
  { d with
    weight := d.weight + 1
    sentiments := d.sentiments ++ [row.sentiment]
    event_types := d.event_types ++ row.event_types
    event_titles := d.event_titles ++ [row.event_title] }

/-- Process one pair `(a, b)` of the inner loop: update the existing edge or
append a fresh one. -/
def updateEdges (es : List ((String × String) × EdgeData)) (k : String × String)
    (row : Row) : List ((String × String) × EdgeData) :=
  match es with
  | [] => [(k, initEdge row)]
  | (k', d) :: rest =>
    if k' = k then (k', bumpEdge d row) :: rest
    else (k', d) :: updateEdges rest k row

/-- One iteration of the row loop of `build_cooccurrence_graph`: skip the row
unless its entity list has at least two entries, else add the distinct names
as nodes and update every unordered pair drawn from the sorted distinct
names. -/
def processRow (G : Graph) (row : Row) : Graph :=
  let ents := row.entity_names
  if ents.isEmpty ∨ ents.length < 2 then G
  else
    { nodes := ents.dedup.foldl addNode G.nodes
      edges := (combinations2 (sortedSet ents)).foldl
        (fun es k => updateEdges es k row) G.edges }

/-- The final pass of `build_cooccurrence_graph`:
`data["mean_sentiment"] = sum(s)/len(s) if s else 0.0`. -/
def finalizeEdge (d : EdgeData) : EdgeData :=
  { d with mean_sentiment := qmean d.sentiments }

/-- `build_cooccurrence_graph` of `graph_module.py`. -/
def build_cooccurrence_graph (df : List Row) : Graph :=
  let G := df.foldl processRow ⟨[], []⟩
  { G with edges := G.edges.map (fun e => (e.1, finalizeEdge e.2)) }

/-- One record of `top_centralities_table`'s output. -/
structure CentralityRow where
  entity : String
  degree : ℚ
  betweenness : ℚ
  eigenvector : ℚ
  degree_raw : Nat
deriving DecidableEq, Repr

/-- `G.degree(n)`: the number of edges incident to `n`. -/
def graphDegree (G : Graph) (n : String) : Nat :=
  (G.edges.filter (fun e => e.1.1 = n ∨ e.1.2 = n)).length

/-- `networkx.degree_centrality`: degree divided by `len(G) - 1`, with every
node mapped to `1` on graphs with at most one node. -/
def degree_centrality (G : Graph) (n : String) : ℚ :=
  if G.nodes.length ≤ 1 then 1
  else (graphDegree G n : ℚ) / ((G.nodes.length : ℚ) - 1)

/-- `rows.sort(key=lambda r: r["degree"], reverse=True)`: descending by
degree centrality. -/
def degGE (x y : CentralityRow) : Prop := y.degree ≤ x.degree

instance : DecidableRel degGE := fun x y => inferInstanceAs (Decidable (y.degree ≤ x.degree))

instance : IsTotal CentralityRow degGE := ⟨fun x y => le_total y.degree x.degree⟩

instance : IsTrans CentralityRow degGE := ⟨fun _ _ _ h h' => le_trans h' h⟩

/-- `top_centralities_table` of `graph_module.py` (`top_n` defaults to 15 in
the source).  The calls into `networkx` for betweenness and eigenvector
centrality are external library algorithms and enter as parameters: `btw` is
the returned betweenness dict, and `evc` is the outcome of the guarded
`eigenvector_centrality` call — `Except.error` when it raised, in which case
the `except` arm substitutes `0.0` for every node. -/
def top_centralities_table (G : Graph) (btw : String → ℚ)
    (evc : Except Unit (String → ℚ)) (top_n : Nat) : List CentralityRow :=
  if G.nodes.length = 0 then []
  else
    let evcf : String → ℚ :=
      match evc with
      | Except.ok f => f
      | Except.error _ => fun _ => 0
    let rows := G.nodes.map (fun n =>
      { entity := n
        degree := degree_centrality G n
        betweenness := btw n
        eigenvector := evcf n
        degree_raw := graphDegree G n })
    (List.insertionSort degGE rows).take top_n

/-! ### geo_module.py -/

/-- One output record of `_aggregate_by_location`. -/
structure LocationAgg where
  event_location : String
  n_events : Nat
  avg_sentiment : ℚ
  top_types : String
  titles_preview : String
deriving DecidableEq, Repr

/-- The `top_types` column for one location: explode the type lists of the
location's rows, rank distinct labels by count (descending; the tie order
among equal counts is unspecified by `sort_values`' quicksort, and one
concrete order is fixed here), take 3 and comma-join. -/
def topTypesFor (fdf : List Row) (loc : String) : String :=
  let labels := (fdf.filter (fun r => r.event_location = loc)).flatMap
    (fun r => r.event_types)
  let ranked := List.insertionSort
    (fun a b => labels.count b ≤ labels.count a) labels.dedup
  String.intercalate ", " (ranked.take 3)

/-- `_aggregate_by_location` of `geo_module.py`: one record per distinct
location string of the row set (pandas `groupby` keys, in ascending order;
the empty string is an ordinary key), carrying the row count, the mean
sentiment, the top-3 type labels and the first 12 titles. -/
def aggregate_by_location (fdf : List Row) : List LocationAgg :=
  let locs := List.insertionSort (· ≤ ·) (fdf.map (fun r => r.event_location)).dedup
  locs.map (fun loc =>
    let sel := fdf.filter (fun r => r.event_location = loc)
    { event_location := loc
      n_events := sel.length
      avg_sentiment := qmean (sel.map (fun r => r.sentiment))
      top_types := topTypesFor fdf loc
      titles_preview := String.intercalate "<br>" ((sel.map (fun r => r.event_title)).take 12) })

/-! ### timeline_module.py

The monthly granularity (`"M"`, the default) is modelled: `_add_period` maps
each row's date to the `(year, month)` pair of its enclosing calendar month.
Weekly bucketing differs only in the date-library period function and is not
needed by any claim.  The groupby outputs are represented with one entry per
distinct key; pandas emits them in ascending key order, which the monthly
series mirror with a lexicographic sort. -/

/-- The calendar-month period of a date: `dt.to_period("M")`. -/
def periodM (d : DateT) : Nat × Nat := (d.year, d.month)

/-- The period of a row.  Rows reaching the timeline functions come from
`build_dataframe` and always carry a date; the default is inert. -/
def rowPeriod (r : Row) : Nat × Nat := periodM (r.date.getD ⟨0, 0, 0⟩)

/-- Ascending lexicographic order on `(year, month)` periods. -/
def periodLE (a b : Nat × Nat) : Prop :=
  a.1 < b.1 ∨ (a.1 = b.1 ∧ a.2 ≤ b.2)

instance : DecidableRel periodLE := fun a b =>
  inferInstanceAs (Decidable (a.1 < b.1 ∨ (a.1 = b.1 ∧ a.2 ≤ b.2)))

/-- `frequency` of `timeline_module.py`: events per period. -/
def frequency (df : List Row) : List ((Nat × Nat) × Nat) :=
  let periods := df.map rowPeriod
  (List.insertionSort periodLE periods.dedup).map (fun p => (p, periods.count p))

/-- `avg_sentiment` of `timeline_module.py`: mean sentiment per period. -/
def avg_sentiment (df : List Row) : List ((Nat × Nat) × ℚ) :=
  let periods := df.map rowPeriod
  (List.insertionSort periodLE periods.dedup).map (fun p =>
    (p, qmean ((df.filter (fun r => rowPeriod r = p)).map (fun r => r.sentiment))))

/-- `dd.explode("event_types").dropna(subset=["event_types"])`: one
`(row, label)` pair per label occurrence; rows with an empty type list
disappear. -/
def explodeTypes (df : List Row) : List (Row × String) :=
  df.flatMap (fun r => r.event_types.map (fun t => (r, t)))

/-- Every label occurrence across the whole row set. -/
def allLabels (df : List Row) : List String :=
  df.flatMap (fun r => r.event_types)

/-- `value_counts().head(top_k).index.tolist()`: the distinct labels ranked
by total count descending, truncated to `top_k`.  The tie order among equal
counts is unspecified by pandas; one concrete order is fixed here and no
theorem below depends on it. -/
def topKLabels (df : List Row) (top_k : Nat) : List String :=
  (List.insertionSort
    (fun a b => (allLabels df).count b ≤ (allLabels df).count a)
    (allLabels df).dedup).take top_k

/-- `type_frequencies` of `timeline_module.py`: count per `(period, label)`
over the label occurrences whose label is among the global top `top_k`
(`top_k` defaults to 10 in the source). -/
def type_frequencies (df : List Row) (top_k : Nat) :
    List (((Nat × Nat) × String) × Nat) :=
  let ex := (explodeTypes df).filter (fun p => p.2 ∈ topKLabels df top_k)
  let keys := ex.map (fun p => (rowPeriod p.1, p.2))
  keys.dedup.map (fun k => (k, keys.count k))

/-- `mark_local_peaks` of `timeline_module.py` applied to the value column:
every flag starts `False`, and position `i` for `1 ≤ i ≤ len - 2` is flagged
iff its value strictly exceeds both neighbours. -/
def mark_local_peaks (vs : List ℚ) : List Bool :=
  (List.range vs.length).map (fun i =>
    decide (1 ≤ i) && decide (i + 1 < vs.length) &&
    decide (vs.getD (i - 1) 0 < vs.getD i 0) &&
    decide (vs.getD (i + 1) 0 < vs.getD i 0))

/-! ### Derived specification helpers for the graph builder -/

/-- The unordered entity pairs a row feeds into the edge loop: none when the
row is skipped by the length guard, else the pairs over its sorted distinct
names. -/
def rowPairs (row : Row) : List (String × String) :=
  if row.entity_names.isEmpty ∨ row.entity_names.length < 2 then []
  else combinations2 (sortedSet row.entity_names)

/-- The rows of `df` that contribute to the edge keyed `(a, b)`. -/
def coRows (df : List Row) (a b : String) : List Row :=
  df.filter (fun r => decide ((a, b) ∈ rowPairs r))

/-- The edge data accumulated over a list of contributing rows (before the
`mean_sentiment` pass). -/
def accEdge (sel : List Row) : EdgeData :=
  { weight := sel.length
    sentiments := sel.map (fun r => r.sentiment)
    event_types := sel.flatMap (fun r => r.event_types)
    event_titles := sel.map (fun r => r.event_title)
    mean_sentiment := 0 }

/-! ### Concrete fixtures -/

/-- A minimal normalized row with the given entity list and title. -/
def mkRow (ents : List String) (title : String) : Row :=
  { event_title := title
    event_location := ""
    date := some ⟨2021, 3, 5⟩
    entity_names := ents
    entity_tags := []
    sentiment := 0
    event_types := [] }

/-- A row whose two entity entries name the same entity. -/
def rowAA : Row := mkRow ["A", "A"] "dup"

/-- A row with no entities and an empty location string. -/
def rowBlank : Row := mkRow [] "solo"

/-- The aggregate record the location aggregator produces for `[rowBlank]`. -/
def aggBlank : LocationAgg :=
  { event_location := "", n_events := 1, avg_sentiment := 0
    top_types := "", titles_preview := "solo" }

/-- The three-row input of the graph accumulation test: entity sets
`{A,B}`, `{A,B}`, `{A,C}`. -/
def rows6 : List Row :=
  [mkRow ["A", "B"] "e1", mkRow ["A", "B"] "e2", mkRow ["A", "C"] "e3"]

/-- The accumulated and finalized data of edge `(A, B)` of `rows6`. -/
def edgeAB : EdgeData :=
  { weight := 2, sentiments := [0, 0], event_types := []
    event_titles := ["e1", "e2"], mean_sentiment := 0 }

/-- A two-node, one-edge graph for the centrality-ranker witness. -/
def g8 : Graph :=
  ⟨["A", "B"],
   [(("A", "B"),
     { weight := 1, sentiments := [0], event_types := []
       event_titles := ["e"], mean_sentiment := 0 })]⟩

/-- The centrality record of node `A` of `g8` when eigenvector centrality
failed. -/
def crowA : CentralityRow :=
  { entity := "A", degree := 1, betweenness := 0, eigenvector := 0, degree_raw := 1 }

/-- The label dict of the `"Treaty"` category of `tax4`. -/
def node4 : List (String × TaxLabel) := [("other", TaxLabel.record (some 3))]

/-- A taxonomy whose `"Treaty"` category only defines an `"other"` entry. -/
def tax4 : Taxonomy := [("Treaty", TaxNode.dict node4)]

/-- A raw event with a `"single"` date descriptor. -/
def evSingle : Event :=
  { event_title := some "signing"
    event_location := some "Geneva"
    event_date_occured := some { kind := some "single", date := some "05/03/2021", start := none, end_ := none }
    event_date_occurred := none
    entities := []
    event_classifications := [] }

/-- A raw event with a `"range"` date descriptor carrying both endpoints. -/
def evRange : Event :=
  { event_title := some "talks"
    event_location := none
    event_date_occured := none
    event_date_occurred := some { kind := some "range", date := none, start := some "01/01/2020", end_ := some "06/03/2021" }
    entities := []
    event_classifications := [] }

/-- A raw event with an unrecognized date kind. -/
def evBad : Event :=
  { event_title := none
    event_location := none
    event_date_occured := some { kind := some "mystery", date := some "05/03/2021", start := none, end_ := none }
    event_date_occurred := none
    entities := []
    event_classifications := [] }

/-- One event group holding the three date fixtures. -/
def events5w : List (List Event) := [[evSingle, evRange, evBad]]

/-- A single row carrying eleven distinct taxonomy labels. -/
def rows9w : List Row :=
  [{ mkRow [] "types" with
      event_types := ["L01", "L02", "L03", "L04", "L05", "L06",
                      "L07", "L08", "L09", "L10", "L11"] }]

/-- The normalized output of `build_dataframe` on `events5w`: the event with
the unknown date kind is gone, and the range event kept only its end date. -/
def rows5w : List Row :=
  [{ event_title := "signing", event_location := "Geneva"
     date := some ⟨2021, 3, 5⟩, entity_names := [], entity_tags := []
     sentiment := 0, event_types := [] },
   { event_title := "talks", event_location := ""
     date := some ⟨2021, 3, 6⟩, entity_names := [], entity_tags := []
     sentiment := 0, event_types := [] }]

/-! ### Association-list lemmas -/

theorem lookupKey_eq_none {κ α : Type} [DecidableEq κ] (l : List (κ × α)) (k : κ) :
    lookupKey l k = none ↔ k ∉ l.map Prod.fst := by
  induction l with
  | nil => simp [lookupKey]
  | cons e rest ih =>
    obtain ⟨k', v⟩ := e
    by_cases h : k' = k
    · subst h
      simp [lookupKey]
    · have hne : ¬k = k' := fun h' => h h'.symm
      simp [lookupKey, h, ih, hne]

theorem mem_of_lookupKey_eq_some {κ α : Type} [DecidableEq κ] {l : List (κ × α)}
    {k : κ} {v : α} (h : lookupKey l k = some v) : (k, v) ∈ l := by
  induction l with
  | nil => simp [lookupKey] at h
  | cons e rest ih =>
    obtain ⟨k', v'⟩ := e
    by_cases hk : k' = k
    · subst hk
      simp [lookupKey] at h
      simp [h]
    · simp [lookupKey, hk] at h
      exact List.mem_cons_of_mem _ (ih h)

theorem lookupKey_eq_some_of_mem {κ α : Type} [DecidableEq κ] {l : List (κ × α)}
    {k : κ} {v : α} (hnd : (l.map Prod.fst).Nodup) (hm : (k, v) ∈ l) :
    lookupKey l k = some v := by
  induction l with
  | nil => cases hm
  | cons e rest ih =>
    obtain ⟨k', v'⟩ := e
    rcases List.mem_cons.mp hm with he | he
    · obtain ⟨rfl, rfl⟩ := Prod.mk.injEq .. ▸ he
      simp [lookupKey]
    · have hk : k' ≠ k := by
        rintro rfl
        exact (List.nodup_cons.mp hnd).1
          (List.mem_map.mpr ⟨(k', v), he, rfl⟩)
      simp [lookupKey, hk]
      exact ih (List.nodup_cons.mp hnd).2 he

theorem lookupKey_map_val {κ α β : Type} [DecidableEq κ] (l : List (κ × α))
    (f : α → β) (k : κ) :
    lookupKey (l.map (fun e => (e.1, f e.2))) k = (lookupKey l k).map f := by
  induction l with
  | nil => simp [lookupKey]
  | cons e rest ih =>
    obtain ⟨k', v⟩ := e
    by_cases h : k' = k <;> simp [lookupKey, h, ih]

/-! ### Edge-accumulation lemmas -/

theorem lookupKey_updateEdges_self (es : List ((String × String) × EdgeData))
    (k : String × String) (row : Row) :
    lookupKey (updateEdges es k row) k =
      some (match lookupKey es k with
            | some d => bumpEdge d row
            | none => initEdge row) := by
  induction es with
  | nil => simp [updateEdges, lookupKey]
  | cons e rest ih =>
    obtain ⟨k', d⟩ := e
    by_cases h : k' = k <;> simp [updateEdges, lookupKey, h, ih]

theorem lookupKey_updateEdges_ne (es : List ((String × String) × EdgeData))
    {k k' : String × String} (row : Row) (h : k' ≠ k) :
    lookupKey (updateEdges es k row) k' = lookupKey es k' := by
  have hne : ¬k = k' := fun h' => h h'.symm
  induction es with
  | nil => simp [updateEdges, lookupKey, hne]
  | cons e rest ih =>
    obtain ⟨k'', d⟩ := e
    by_cases h2 : k'' = k
    · subst h2
      simp [updateEdges, lookupKey, hne]
    · by_cases h3 : k'' = k'
      · subst h3
        simp [updateEdges, lookupKey, h2]
      · simp [updateEdges, lookupKey, h2, h3, ih]

theorem keys_updateEdges (es : List ((String × String) × EdgeData))
    (k : String × String) (row : Row) :
    (updateEdges es k row).map Prod.fst =
      if k ∈ es.map Prod.fst then es.map Prod.fst else es.map Prod.fst ++ [k] := by
  induction es with
  | nil => simp [updateEdges]
  | cons e rest ih =>
    obtain ⟨k', d⟩ := e
    by_cases h : k' = k
    · subst h
      simp [updateEdges]
    · have hne : ¬k = k' := fun h' => h h'.symm
      simp [updateEdges, h, ih, hne]
      split <;> simp_all

theorem keys_nodup_updateEdges {es : List ((String × String) × EdgeData)}
    (k : String × String) (row : Row) (h : (es.map Prod.fst).Nodup) :
    ((updateEdges es k row).map Prod.fst).Nodup := by
  rw [keys_updateEdges]
  split
  · exact h
  · next hk => simp [List.nodup_append, h, hk]

theorem lookupKey_foldl_updateEdges_not_mem (row : Row)
    (pairs : List (String × String)) (es : List ((String × String) × EdgeData))
    (k : String × String) (h : k ∉ pairs) :
    lookupKey (pairs.foldl (fun es' k' => updateEdges es' k' row) es) k =
      lookupKey es k := by
  induction pairs generalizing es with
  | nil => rfl
  | cons p rest ih =>
    have hne : k ≠ p := fun h' => h (h' ▸ List.mem_cons_self p rest)
    have hrest : k ∉ rest := fun h' => h (List.mem_cons_of_mem _ h')
    rw [List.foldl_cons, ih _ hrest, lookupKey_updateEdges_ne _ row hne]

theorem lookupKey_foldl_updateEdges_mem (row : Row)
    (pairs : List (String × String)) (es : List ((String × String) × EdgeData))
    (k : String × String) (hnd : pairs.Nodup) (h : k ∈ pairs) :
    lookupKey (pairs.foldl (fun es' k' => updateEdges es' k' row) es) k =
      some (match lookupKey es k with
            | some d => bumpEdge d row
            | none => initEdge row) := by
  induction pairs generalizing es with
  | nil => cases h
  | cons p rest ih =>
    rcases List.mem_cons.mp h with rfl | hmem
    · have hk : k ∉ rest := (List.nodup_cons.mp hnd).1
      rw [List.foldl_cons,
        lookupKey_foldl_updateEdges_not_mem row rest _ k hk,
        lookupKey_updateEdges_self]
    · rw [List.foldl_cons, ih _ (List.nodup_cons.mp hnd).2 hmem]
      by_cases hkp : k = p
      · subst hkp
        exact absurd hmem (List.nodup_cons.mp hnd).1
      · rw [lookupKey_updateEdges_ne _ row hkp]

theorem keys_nodup_foldl_updateEdges (row : Row)
    (pairs : List (String × String)) (es : List ((String × String) × EdgeData))
    (h : (es.map Prod.fst).Nodup) :
    (((pairs.foldl (fun es' k' => updateEdges es' k' row) es)).map Prod.fst).Nodup := by
  induction pairs generalizing es with
  | nil => exact h
  | cons p rest ih => exact ih _ (keys_nodup_updateEdges p row h)

/-! ### Pair-enumeration lemmas -/

theorem mem_combinations2 {α : Type} {l : List α} {p : α × α}
    (h : p ∈ combinations2 l) : p.1 ∈ l ∧ p.2 ∈ l := by
  induction l with
  | nil => cases h
  | cons a rest ih =>
    rw [combinations2, List.mem_append] at h
    rcases h with h | h
    · obtain ⟨b, hb, rfl⟩ := List.mem_map.mp h
      exact ⟨List.mem_cons_self a rest, List.mem_cons_of_mem _ hb⟩
    · exact ⟨List.mem_cons_of_mem _ (ih h).1, List.mem_cons_of_mem _ (ih h).2⟩

theorem combinations2_nodup {α : Type} {l : List α} (h : l.Nodup) :
    (combinations2 l).Nodup := by
  induction l with
  | nil => exact List.nodup_nil
  | cons a rest ih =>
    rw [combinations2]
    refine List.Nodup.append ?_ (ih (List.nodup_cons.mp h).2) ?_
    · exact ((List.nodup_cons.mp h).2).map
        (fun x y hxy => (Prod.mk.injEq .. ▸ hxy).2)
    · intro p hp hp'
      obtain ⟨b, _, rfl⟩ := List.mem_map.mp hp
      exact (List.nodup_cons.mp h).1 (mem_combinations2 hp').1

theorem mem_combinations2_sorted {l : List String} (hs : l.Sorted (· < ·))
    {a b : String} : (a, b) ∈ combinations2 l ↔ a ∈ l ∧ b ∈ l ∧ a < b := by
  induction l with
  | nil => simp [combinations2]
  | cons x rest ih =>
    have hx : ∀ y ∈ rest, x < y := List.rel_of_sorted_cons hs
    constructor
    · intro h
      rw [combinations2, List.mem_append] at h
      rcases h with h | h
      · obtain ⟨c, hc, heq⟩ := List.mem_map.mp h
        obtain ⟨rfl, rfl⟩ := Prod.mk.injEq .. ▸ heq
        exact ⟨List.mem_cons_self _ _, List.mem_cons_of_mem _ hc, hx _ hc⟩
      · obtain ⟨ha, hb, hab⟩ := (ih hs.of_cons).mp h
        exact ⟨List.mem_cons_of_mem _ ha, List.mem_cons_of_mem _ hb, hab⟩
    · rintro ⟨ha, hb, hab⟩
      rw [combinations2, List.mem_append]
      rcases List.mem_cons.mp ha with hax | ha'
      · subst hax
        rcases List.mem_cons.mp hb with hbx | hb'
        · subst hbx
          exact absurd hab (lt_irrefl _)
        · exact Or.inl (List.mem_map.mpr ⟨b, hb', rfl⟩)
      · rcases List.mem_cons.mp hb with hbx | hb'
        · subst hbx
          exact absurd hab (not_lt_of_lt (hx _ ha'))
        · exact Or.inr ((ih hs.of_cons).mpr ⟨ha', hb', hab⟩)

/-! ### Sorted distinct-entity lemmas -/

theorem sortedSet_perm_dedup (l : List String) : List.Perm (sortedSet l) l.dedup :=
  List.perm_insertionSort _ _

theorem mem_sortedSet {l : List String} {a : String} :
    a ∈ sortedSet l ↔ a ∈ l := by
  rw [(sortedSet_perm_dedup l).mem_iff, List.mem_dedup]

theorem sortedSet_nodup (l : List String) : (sortedSet l).Nodup :=
  ((sortedSet_perm_dedup l).nodup_iff).mpr l.nodup_dedup

theorem sortedSet_sorted_lt (l : List String) : (sortedSet l).Sorted (· < ·) := by
  have h1 : (sortedSet l).Sorted (· ≤ ·) := List.sorted_insertionSort _ _
  exact (h1.and (sortedSet_nodup l)).imp
    (fun h => lt_of_le_of_ne h.1 h.2)

theorem two_le_length_of_mem_ne {α : Type} {l : List α} {a b : α}
    (ha : a ∈ l) (hb : b ∈ l) (h : a ≠ b) : 2 ≤ l.length := by
  match l with
  | [] => cases ha
  | [x] =>
    rw [List.mem_singleton] at ha hb
    exact absurd (ha.trans hb.symm) h
  | x :: y :: t => simp [Nat.succ_le_succ, Nat.succ_le_succ (Nat.zero_le _)]

/-! ### Row-contribution lemmas -/

theorem mem_rowPairs {row : Row} {a b : String} :
    (a, b) ∈ rowPairs row ↔
      a ∈ row.entity_names ∧ b ∈ row.entity_names ∧ a < b := by
  rw [rowPairs]
  by_cases hg : row.entity_names.isEmpty ∨ row.entity_names.length < 2
  · rw [if_pos hg]
    simp only [List.not_mem_nil, false_iff]
    rintro ⟨ha, hb, hab⟩
    have h2 : 2 ≤ row.entity_names.length :=
      two_le_length_of_mem_ne ha hb (ne_of_lt hab)
    rcases hg with hg | hg
    · rw [List.isEmpty_iff] at hg
      rw [hg] at ha
      cases ha
    · omega
  · rw [if_neg hg, mem_combinations2_sorted (sortedSet_sorted_lt _)]
    simp [mem_sortedSet]

theorem rowPairs_nodup (row : Row) : (rowPairs row).Nodup := by
  rw [rowPairs]
  split
  · exact List.nodup_nil
  · exact combinations2_nodup (sortedSet_nodup _)

theorem mem_coRows {df : List Row} {a b : String} {r : Row} :
    r ∈ coRows df a b ↔ r ∈ df ∧ (a, b) ∈ rowPairs r := by
  simp [coRows, List.mem_filter]

theorem lt_of_coRows_ne_nil {df : List Row} {a b : String}
    (h : coRows df a b ≠ []) : a < b := by
  obtain ⟨r, hr⟩ := List.exists_mem_of_ne_nil _ h
  exact (mem_rowPairs.mp (mem_coRows.mp hr).2).2.2

theorem initEdge_eq_accEdge (r : Row) : initEdge r = accEdge [r] := by
  simp [initEdge, accEdge]

theorem bumpEdge_accEdge (sel : List Row) (r : Row) :
    bumpEdge (accEdge sel) r = accEdge (sel ++ [r]) := by
  simp [bumpEdge, accEdge]

/-! ### Graph-builder invariants -/

theorem processRow_edges (G : Graph) (row : Row) :
    (processRow G row).edges =
      (rowPairs row).foldl (fun es k => updateEdges es k row) G.edges := by
  by_cases hg : row.entity_names = [] ∨ row.entity_names.length < 2 <;>
    simp [processRow, rowPairs, hg]

theorem mem_addNode (nodes : List String) (m n : String) :
    n ∈ addNode nodes m ↔ n ∈ nodes ∨ n = m := by
  rw [addNode]
  split
  · next h =>
    constructor
    · exact Or.inl
    · rintro (h' | rfl)
      · exact h'
      · exact h
  · simp

theorem mem_foldl_addNode (l : List String) (nodes : List String) (n : String) :
    n ∈ l.foldl addNode nodes ↔ n ∈ nodes ∨ n ∈ l := by
  induction l generalizing nodes with
  | nil => simp
  | cons a rest ih =>
    simp [List.foldl_cons, ih, mem_addNode, List.mem_cons]
    tauto

theorem mem_processRow_nodes (G : Graph) (row : Row) (n : String) :
    n ∈ (processRow G row).nodes ↔
      n ∈ G.nodes ∨ (2 ≤ row.entity_names.length ∧ n ∈ row.entity_names) := by
  by_cases hg : row.entity_names = [] ∨ row.entity_names.length < 2
  · have hlt : row.entity_names.length < 2 := by
      rcases hg with hg | hg
      · rw [hg]
        simp
      · exact hg
    have h2 : ¬2 ≤ row.entity_names.length := by omega
    simp [processRow, hg, h2]
  · have h2 : 2 ≤ row.entity_names.length := by
      push_neg at hg
      omega
    simp [processRow, hg, mem_foldl_addNode, List.mem_dedup, h2]

theorem lookup_foldl_processRow (df : List Row) (a b : String) :
    lookupKey (df.foldl processRow ⟨[], []⟩).edges (a, b) =
      if coRows df a b = [] then none else some (accEdge (coRows df a b)) := by
  induction df using List.reverseRecOn with
  | nil => simp [lookupKey, coRows]
  | append_singleton l r ih =>
    rw [List.foldl_append, List.foldl_cons, List.foldl_nil, processRow_edges]
    have hco : coRows (l ++ [r]) a b =
        coRows l a b ++ if (a, b) ∈ rowPairs r then [r] else [] := by
      rw [coRows, coRows, List.filter_append]
      congr 1
      by_cases hm : (a, b) ∈ rowPairs r <;> simp [hm]
    by_cases hm : (a, b) ∈ rowPairs r
    · rw [lookupKey_foldl_updateEdges_mem r _ _ _ (rowPairs_nodup r) hm, ih, hco,
        if_pos hm]
      by_cases hnil : coRows l a b = []
      · simp [hnil, initEdge_eq_accEdge]
      · simp [hnil, bumpEdge_accEdge]
    · rw [lookupKey_foldl_updateEdges_not_mem r _ _ _ hm, ih, hco, if_neg hm,
        List.append_nil]

theorem keys_nodup_foldl_processRow (df : List Row) :
    (((df.foldl processRow ⟨[], []⟩).edges).map Prod.fst).Nodup := by
  induction df using List.reverseRecOn with
  | nil => simp
  | append_singleton l r ih =>
    rw [List.foldl_append, List.foldl_cons, List.foldl_nil, processRow_edges]
    exact keys_nodup_foldl_updateEdges r _ _ ih

theorem mem_foldl_processRow_nodes (df : List Row) (n : String) :
    n ∈ (df.foldl processRow ⟨[], []⟩).nodes ↔
      ∃ r ∈ df, 2 ≤ r.entity_names.length ∧ n ∈ r.entity_names := by
  induction df using List.reverseRecOn with
  | nil => simp
  | append_singleton l r ih =>
    rw [List.foldl_append, List.foldl_cons, List.foldl_nil,
      mem_processRow_nodes, ih]
    simp only [List.mem_append, List.mem_singleton]
    constructor
    · rintro (⟨r', hr', hp⟩ | hp)
      · exact ⟨r', Or.inl hr', hp⟩
      · exact ⟨r, Or.inr rfl, hp⟩
    · rintro ⟨r', hr' | hr', hp⟩
      · exact Or.inl ⟨r', hr', hp⟩
      · rw [hr'] at hp
        exact Or.inr hp

theorem build_edges_lookup (df : List Row) (a b : String) :
    lookupKey (build_cooccurrence_graph df).edges (a, b) =
      if coRows df a b = [] then none
      else some (finalizeEdge (accEdge (coRows df a b))) := by
  simp only [build_cooccurrence_graph]
  rw [lookupKey_map_val, lookup_foldl_processRow]
  split <;> simp

theorem build_keys_nodup (df : List Row) :
    (((build_cooccurrence_graph df).edges).map Prod.fst).Nodup := by
  simp only [build_cooccurrence_graph]
  rw [List.map_map]
  exact keys_nodup_foldl_processRow df

theorem mem_build_edges_iff {df : List Row} {k : String × String} {d : EdgeData} :
    (k, d) ∈ (build_cooccurrence_graph df).edges ↔
      lookupKey (build_cooccurrence_graph df).edges k = some d :=
  ⟨fun hm => lookupKey_eq_some_of_mem (build_keys_nodup df) hm,
   mem_of_lookupKey_eq_some⟩

theorem build_nodes_mem (df : List Row) (n : String) :
    n ∈ (build_cooccurrence_graph df).nodes ↔
      ∃ r ∈ df, 2 ≤ r.entity_names.length ∧ n ∈ r.entity_names := by
  simp only [build_cooccurrence_graph]
  exact mem_foldl_processRow_nodes df n

/-! ### Claim C1 -/

/-- C1, counterexample: on the single-row input `[rowAA]`, whose only row
lists the same entity name twice (so it has fewer than two distinct entity
names), the graph builder nonetheless creates a node, so it is not the case
that every node of the graph occurs in a row with two or more distinct
entity names. -/
theorem c1_counterexample :
    ¬ (∀ n ∈ (build_cooccurrence_graph [rowAA]).nodes,
        ∃ r ∈ [rowAA], 2 ≤ r.entity_names.dedup.length ∧ n ∈ r.entity_names) := by
  decide

/-- C1, amended: the graph builder's guard counts list entries, not distinct
names.  (1) A row whose entity list has fewer than two entries contributes
nothing at all; (2) every node of the resulting graph occurs in at least one
row whose entity list has two or more entries (possibly with repeated
names); (3) every edge still requires a row with two or more distinct entity
names containing both endpoints. -/
theorem c1_amended :
    (∀ (G : Graph) (row : Row), row.entity_names.length < 2 →
      processRow G row = G) ∧
    (∀ (df : List Row) (n : String), n ∈ (build_cooccurrence_graph df).nodes →
      ∃ r ∈ df, 2 ≤ r.entity_names.length ∧ n ∈ r.entity_names) ∧
    (∀ (df : List Row) (a b : String) (d : EdgeData),
      ((a, b), d) ∈ (build_cooccurrence_graph df).edges →
      ∃ r ∈ df, 2 ≤ r.entity_names.dedup.length ∧
        a ∈ r.entity_names ∧ b ∈ r.entity_names) := by
  refine ⟨?_, ?_, ?_⟩
  · intro G row h
    simp [processRow, h]
  · intro df n hn
    exact (build_nodes_mem df n).mp hn
  · intro df a b d hm
    rw [mem_build_edges_iff, build_edges_lookup] at hm
    by_cases hnil : coRows df a b = []
    · rw [if_pos hnil] at hm
      cases hm
    · obtain ⟨r, hr⟩ := List.exists_mem_of_ne_nil _ hnil
      obtain ⟨hrdf, hrp⟩ := mem_coRows.mp hr
      obtain ⟨ha, hb, hab⟩ := mem_rowPairs.mp hrp
      exact ⟨r, hrdf,
        two_le_length_of_mem_ne (List.mem_dedup.mpr ha) (List.mem_dedup.mpr hb)
          (ne_of_lt hab), ha, hb⟩

/-- Witness for C1 (amended): the empty-entity row is processed into an
unchanged graph. -/
theorem c1_amended_witness : processRow ⟨[], []⟩ rowBlank = ⟨[], []⟩ :=
  c1_amended.1 ⟨[], []⟩ rowBlank (by decide)

/-! ### Claim C6 -/

/-- C6: on the three rows with entity sets `{A,B}`, `{A,B}`, `{A,C}` the
builder yields exactly the nodes `A`, `B`, `C`, edge `(A,B)` of weight 2,
edge `(A,C)` of weight 1, and no edge between `B` and `C`; and in general
the weight of every edge equals the number of input rows in which both of
its endpoints occur. -/
theorem c6_graph_accumulation :
    (build_cooccurrence_graph rows6).nodes = ["A", "B", "C"] ∧
    (lookupKey (build_cooccurrence_graph rows6).edges ("A", "B")).map
      EdgeData.weight = some 2 ∧
    (lookupKey (build_cooccurrence_graph rows6).edges ("A", "C")).map
      EdgeData.weight = some 1 ∧
    lookupKey (build_cooccurrence_graph rows6).edges ("B", "C") = none ∧
    lookupKey (build_cooccurrence_graph rows6).edges ("C", "B") = none ∧
    (∀ (df : List Row) (a b : String) (d : EdgeData),
      ((a, b), d) ∈ (build_cooccurrence_graph df).edges →
      d.weight = (df.filter (fun r =>
        decide (a ∈ r.entity_names ∧ b ∈ r.entity_names))).length) := by
  refine ⟨by with_unfolding_all decide, by with_unfolding_all decide,
    by with_unfolding_all decide, by with_unfolding_all decide,
    by with_unfolding_all decide, ?_⟩
  intro df a b d hm
  rw [mem_build_edges_iff, build_edges_lookup] at hm
  by_cases hnil : coRows df a b = []
  · rw [if_pos hnil] at hm
    cases hm
  · rw [if_neg hnil] at hm
    have hab : a < b := lt_of_coRows_ne_nil hnil
    have hd : d = finalizeEdge (accEdge (coRows df a b)) := (Option.some.inj hm).symm
    have hco : coRows df a b = df.filter (fun r =>
        decide (a ∈ r.entity_names ∧ b ∈ r.entity_names)) := by
      rw [coRows]
      apply List.filter_congr
      intro r _
      rw [decide_eq_decide, mem_rowPairs]
      constructor
      · rintro ⟨h1, h2, _⟩
        exact ⟨h1, h2⟩
      · rintro ⟨h1, h2⟩
        exact ⟨h1, h2, hab⟩
    rw [hd, hco]
    rfl

/-- Witness for C6: the general weight law applied to edge `(A,B)` of the
concrete three-row input. -/
theorem c6_witness :
    edgeAB.weight = (rows6.filter (fun r =>
      decide ("A" ∈ r.entity_names ∧ "B" ∈ r.entity_names))).length :=
  c6_graph_accumulation.2.2.2.2.2 rows6 "A" "B" edgeAB (by with_unfolding_all decide)

/-! ### Claim C7 -/

/-- C7: every edge `(a, b)` of a built graph has distinct endpoints, weight
at least 1, weight equal to the lengths of its accumulated sentiment and
title lists, and a `mean_sentiment` equal to the arithmetic mean of its
accumulated sentiments. -/
theorem c7_edge_invariants :
    ∀ (df : List Row) (a b : String) (d : EdgeData),
      ((a, b), d) ∈ (build_cooccurrence_graph df).edges →
      a ≠ b ∧ 1 ≤ d.weight ∧ d.weight = d.sentiments.length ∧
      d.weight = d.event_titles.length ∧
      d.mean_sentiment = d.sentiments.sum / (d.sentiments.length : ℚ) := by
  intro df a b d hm
  rw [mem_build_edges_iff, build_edges_lookup] at hm
  by_cases hnil : coRows df a b = []
  · rw [if_pos hnil] at hm
    cases hm
  · rw [if_neg hnil] at hm
    have hd : d = finalizeEdge (accEdge (coRows df a b)) := (Option.some.inj hm).symm
    have hab : a < b := lt_of_coRows_ne_nil hnil
    have hlen : 0 < (coRows df a b).length := List.length_pos.mpr hnil
    subst hd
    refine ⟨ne_of_lt hab, hlen, ?_, ?_, ?_⟩
    · simp [finalizeEdge, accEdge]
    · simp [finalizeEdge, accEdge]
    · simp [finalizeEdge, accEdge, qmean, hnil]

/-- Witness for C7: the invariants instantiated at edge `(A,B)` of the
three-row input. -/
theorem c7_witness :
    ("A" : String) ≠ "B" ∧ 1 ≤ edgeAB.weight ∧
    edgeAB.weight = edgeAB.sentiments.length ∧
    edgeAB.weight = edgeAB.event_titles.length ∧
    edgeAB.mean_sentiment = edgeAB.sentiments.sum / (edgeAB.sentiments.length : ℚ) :=
  c7_edge_invariants rows6 "A" "B" edgeAB (by with_unfolding_all decide)

/-! ### Claim C2 -/

theorem length_filter_eq_count_map {α β : Type} [DecidableEq β] (f : α → β)
    (l : List α) (b : β) :
    (l.filter (fun a => decide (f a = b))).length = (l.map f).count b := by
  induction l with
  | nil => rfl
  | cons x rest ih =>
    by_cases h : f x = b <;>
      simp [List.filter_cons, List.count_cons, h, ih]

theorem aggregate_locs (df : List Row) :
    (aggregate_by_location df).map (fun a => a.event_location) =
      List.insertionSort (· ≤ ·) (df.map (fun r => r.event_location)).dedup := by
  rw [aggregate_by_location, List.map_map]
  exact List.map_id' _

/-- C2, counterexample: on a single row whose location is the empty string,
the aggregator emits one record (for the empty string) and the `n_events`
total is 1, although there are zero distinct non-empty location strings and
zero rows with a non-empty location. -/
theorem c2_counterexample :
    (aggregate_by_location [rowBlank]).length = 1 ∧
    ((aggregate_by_location [rowBlank]).map (fun a => a.n_events)).sum = 1 ∧
    (([rowBlank].map (fun r => r.event_location)).dedup.filter
      (fun loc => decide (loc ≠ ""))).length = 0 ∧
    ([rowBlank].filter (fun r => decide (r.event_location ≠ ""))).length = 0 := by
  with_unfolding_all decide

/-- C2, amended: the aggregator produces exactly one record per distinct
location string of the row collection — the empty string is an ordinary
group key, not excluded — each record counting the rows with that exact
location, and the sum of `n_events` over all records equals the total number
of rows. -/
theorem c2_amended : ∀ df : List Row,
    ((aggregate_by_location df).map (fun a => a.event_location)).Nodup ∧
    (∀ loc : String,
      loc ∈ (aggregate_by_location df).map (fun a => a.event_location) ↔
      loc ∈ df.map (fun r => r.event_location)) ∧
    (∀ a ∈ aggregate_by_location df,
      a.n_events =
        (df.filter (fun r => decide (r.event_location = a.event_location))).length) ∧
    ((aggregate_by_location df).map (fun a => a.n_events)).sum = df.length := by
  intro df
  refine ⟨?_, ?_, ?_, ?_⟩
  · rw [aggregate_locs]
    exact ((List.perm_insertionSort _ _).nodup_iff).mpr
      (df.map (fun r => r.event_location)).nodup_dedup
  · intro loc
    rw [aggregate_locs, (List.perm_insertionSort _ _).mem_iff, List.mem_dedup]
  · intro a ha
    obtain ⟨loc, _, rfl⟩ := List.mem_map.mp ha
    rfl
  · have hlist : (aggregate_by_location df).map (fun a => a.n_events) =
        (List.insertionSort (· ≤ ·) (df.map (fun r => r.event_location)).dedup).map
          (fun loc =>
            (df.filter (fun r => decide (r.event_location = loc))).length) := by
      rw [aggregate_by_location, List.map_map]
      rfl
    rw [hlist]
    simp only [length_filter_eq_count_map]
    rw [((List.perm_insertionSort _ _).map
      (fun loc => (df.map (fun r => r.event_location)).count loc)).sum_eq]
    rw [List.sum_map_count_dedup_eq_length, List.length_map]

/-- Witness for C2 (amended): the per-record count law applied to the lone
record of the blank-location row. -/
theorem c2_amended_witness :
    aggBlank.n_events =
      ([rowBlank].filter (fun r =>
        decide (r.event_location = aggBlank.event_location))).length :=
  (c2_amended [rowBlank]).2.2.1 aggBlank (by with_unfolding_all decide)

/-! ### Claim C3 -/

/-- C3: on empty input the graph builder, the centrality ranker and all
three temporal aggregations return well-formed empty results, but the
normalizer does not — `build_dataframe` on an empty event collection builds
`pd.DataFrame([])`, which has no `date` column, so `dropna(subset=["date"])`
raises `KeyError` instead of returning an empty row collection. -/
theorem c3_empty_inputs :
    (∀ taxonomy : Taxonomy, build_dataframe [] taxonomy = Except.error ()) ∧
    (∀ taxonomy : Taxonomy, build_dataframe [[]] taxonomy = Except.error ()) ∧
    build_cooccurrence_graph [] = ⟨[], []⟩ ∧
    (∀ (btw : String → ℚ) (evc : Except Unit (String → ℚ)) (top_n : Nat),
      top_centralities_table ⟨[], []⟩ btw evc top_n = []) ∧
    frequency [] = [] ∧
    avg_sentiment [] = [] ∧
    (∀ top_k : Nat, type_frequencies [] top_k = []) :=
  ⟨fun _ => rfl, fun _ => rfl, rfl, fun _ _ _ => rfl, rfl, rfl, fun _ => rfl⟩

/-! ### Claim C4 -/

/-- C4: the sentiment resolver returns the recorded sentiment on an exact
`(category, label)` hit, falls back to the category's dict `"other"` entry
when the label is absent, returns `0.0` in every remaining case — in
particular on the empty taxonomy with any pair, and on missing or non-dict
categories, where it never raises. -/
theorem c4_sentiment_resolver :
    (∀ (taxonomy : Taxonomy) (category label : String)
        (node : List (String × TaxLabel)) (s : Option ℚ),
      lookupKey taxonomy category = some (TaxNode.dict node) →
      lookupKey node label = some (TaxLabel.record s) →
      taxonomy_sentiment_lookup taxonomy category label = Except.ok (s.getD 0)) ∧
    (∀ (taxonomy : Taxonomy) (category label : String)
        (node : List (String × TaxLabel)) (s : Option ℚ),
      lookupKey taxonomy category = some (TaxNode.dict node) →
      lookupKey node label = none →
      lookupKey node "other" = some (TaxLabel.record s) →
      taxonomy_sentiment_lookup taxonomy category label = Except.ok (s.getD 0)) ∧
    (∀ (taxonomy : Taxonomy) (category label : String)
        (node : List (String × TaxLabel)),
      lookupKey taxonomy category = some (TaxNode.dict node) →
      lookupKey node label = none →
      (lookupKey node "other" = none ∨
        lookupKey node "other" = some TaxLabel.notDict) →
      taxonomy_sentiment_lookup taxonomy category label = Except.ok 0) ∧
    (∀ (taxonomy : Taxonomy) (category label : String),
      (lookupKey taxonomy category = none ∨
        lookupKey taxonomy category = some TaxNode.notDict) →
      taxonomy_sentiment_lookup taxonomy category label = Except.ok 0) ∧
    taxonomy_sentiment_lookup [] "X" "Y" = Except.ok 0 := by
  refine ⟨?_, ?_, ?_, ?_, rfl⟩
  · intro t c l node s h1 h2
    simp [taxonomy_sentiment_lookup, h1, h2]
  · intro t c l node s h1 h2 h3
    simp [taxonomy_sentiment_lookup, h1, h2, h3]
  · intro t c l node h1 h2 h3
    rcases h3 with h3 | h3 <;> simp [taxonomy_sentiment_lookup, h1, h2, h3]
  · intro t c l h1
    rcases h1 with h1 | h1 <;> simp [taxonomy_sentiment_lookup, h1]

/-- Witness for C4: the `"other"` fallback fires on `tax4` and the empty
taxonomy resolves to zero. -/
theorem c4_witness :
    taxonomy_sentiment_lookup tax4 "Treaty" "UnknownLabel" = Except.ok 3 ∧
    taxonomy_sentiment_lookup [] "X" "Y" = Except.ok 0 :=
  ⟨c4_sentiment_resolver.2.1 tax4 "Treaty" "UnknownLabel" node4 (some 3) rfl rfl rfl,
   c4_sentiment_resolver.2.2.2.2⟩

/-! ### Claim C5 -/

theorem mapRows_ok_length {evs : List Event} {taxonomy : Taxonomy}
    {rs : List Row} (h : mapRows evs taxonomy = Except.ok rs) :
    rs.length = evs.length := by
  induction evs generalizing rs with
  | nil =>
    unfold mapRows at h
    cases h
    rfl
  | cons ev rest ih =>
    unfold mapRows at h
    split at h
    · exact Except.noConfusion h
    · split at h
      · exact Except.noConfusion h
      · next rs' hm =>
        cases h
        simp [List.length_cons, ih hm]

/-- C5: a `"single"` descriptor resolves through its `date` field, a
`"range"` descriptor resolves through its `end` field with the `start`
field ignored, every other kind resolves to no date, and a successful
normalization is never longer than the flattened raw event collection with
every surviving row carrying a date. -/
theorem c5_date_resolution :
    (∀ dd : DateDesc, dd.kind = some "single" →
      parse_event_date dd = dd.date.bind strptimeDMY) ∧
    (∀ dd : DateDesc, dd.kind = some "range" →
      parse_event_date dd = dd.end_.bind strptimeDMY) ∧
    (∀ dd : DateDesc, dd.kind ≠ some "single" → dd.kind ≠ some "range" →
      parse_event_date dd = none) ∧
    (∀ (dd : DateDesc) (s : Option String),
      parse_event_date { dd with start := s } = parse_event_date dd) ∧
    (∀ (events_json : List (List Event)) (taxonomy : Taxonomy) (rows : List Row),
      build_dataframe events_json taxonomy = Except.ok rows →
      rows.length ≤ (flatten_events events_json).length ∧
      ∀ r ∈ rows, r.date.isSome) := by
  refine ⟨?_, ?_, ?_, ?_, ?_⟩
  · intro dd h
    simp [parse_event_date, h]
  · intro dd h
    simp [parse_event_date, h]
  · intro dd h1 h2
    unfold parse_event_date
    split
    · next heq => exact absurd heq h1
    · next heq => exact absurd heq h2
    · rfl
  · intro dd s
    rfl
  · intro events taxonomy rows h
    unfold build_dataframe at h
    split at h
    · exact Except.noConfusion h
    · next pre hm =>
      split at h
      · exact Except.noConfusion h
      · cases h
        constructor
        · calc (pre.filter (fun r => r.date.isSome)).length
              ≤ pre.length := List.length_filter_le _ _
            _ = (flatten_events events).length := mapRows_ok_length hm
        · intro r hr
          exact List.mem_filter.mp hr |>.2

/-- Witness for C5: the three-event fixture normalizes successfully (the
unknown-kind event dropped, the range event collapsed to its end date) and
the result is no longer than the input. -/
theorem c5_witness : rows5w.length ≤ (flatten_events events5w).length :=
  (c5_date_resolution.2.2.2.2 events5w [] rows5w (by with_unfolding_all rfl)).1

/-! ### Claim C8 -/

/-- C8: the centrality ranker returns an empty table on the empty graph;
when the eigenvector-centrality call failed, every emitted record carries
eigenvector 0.0 instead of a propagated failure; and the table never
exceeds `top_n` records (15 at the call site) and is sorted by degree
centrality in descending order. -/
theorem c8_centrality_ranker :
    ∀ (G : Graph) (btw : String → ℚ) (evc : Except Unit (String → ℚ))
      (top_n : Nat),
      (G.nodes = [] → top_centralities_table G btw evc top_n = []) ∧
      (evc = Except.error () →
        ∀ row ∈ top_centralities_table G btw evc top_n, row.eigenvector = 0) ∧
      (top_centralities_table G btw evc top_n).length ≤ top_n ∧
      (top_centralities_table G btw evc top_n).Sorted degGE := by
  intro G btw evc top_n
  refine ⟨?_, ?_, ?_, ?_⟩
  · intro h
    simp [top_centralities_table, h]
  · intro hevc row hrow
    subst hevc
    by_cases h0 : G.nodes.length = 0
    · simp [top_centralities_table, h0] at hrow
    · simp only [top_centralities_table, h0, if_false] at hrow
      have h1 := List.take_subset _ _ hrow
      have h2 := (List.perm_insertionSort _ _).mem_iff.mp h1
      obtain ⟨n, _, rfl⟩ := List.mem_map.mp h2
      rfl
  · by_cases h0 : G.nodes.length = 0
    · simp [top_centralities_table, h0]
    · simp only [top_centralities_table, h0, if_false]
      exact List.length_take_le _ _
  · by_cases h0 : G.nodes.length = 0
    · simp [top_centralities_table, h0, List.Sorted]
    · simp only [top_centralities_table, h0, if_false]
      exact List.Pairwise.sublist (List.take_sublist _ _)
        (List.sorted_insertionSort degGE _)

/-- Witness for C8: the empty graph yields the empty table, and on `g8` with
a failed eigenvector computation the record of node `A` carries 0.0. -/
theorem c8_witness :
    top_centralities_table ⟨[], []⟩ (fun _ => 0) (Except.ok (fun _ => 0)) 15 = [] ∧
    crowA.eigenvector = 0 :=
  ⟨(c8_centrality_ranker ⟨[], []⟩ (fun _ => 0) (Except.ok (fun _ => 0)) 15).1 rfl,
   (c8_centrality_ranker g8 (fun _ => 0) (Except.error ()) 15).2.1 rfl crowA
     (by with_unfolding_all decide)⟩

/-! ### Claim C9 -/

theorem sorted_countGe (labels : List String) (l : List String) :
    List.Sorted (fun a b => labels.count b ≤ labels.count a)
      (List.insertionSort (fun a b => labels.count b ≤ labels.count a) l) := by
  haveI : IsTotal String (fun a b => labels.count b ≤ labels.count a) :=
    ⟨fun a b => le_total _ _⟩
  haveI : IsTrans String (fun a b => labels.count b ≤ labels.count a) :=
    ⟨fun _ _ _ hab hbc => le_trans hbc hab⟩
  exact List.sorted_insertionSort _ l

theorem mem_explodeTypes {df : List Row} {p : Row × String} :
    p ∈ explodeTypes df ↔ p.1 ∈ df ∧ p.2 ∈ p.1.event_types := by
  constructor
  · intro h
    obtain ⟨r, hr, h2⟩ := List.mem_flatMap.mp h
    obtain ⟨t, ht, heq⟩ := List.mem_map.mp h2
    cases heq
    exact ⟨hr, ht⟩
  · intro h
    exact List.mem_flatMap.mpr ⟨p.1, h.1, List.mem_map.mpr ⟨p.2, h.2, rfl⟩⟩

theorem topKLabels_subset (df : List Row) (k : Nat) :
    ∀ lab ∈ topKLabels df k, lab ∈ allLabels df := by
  intro lab h
  rw [topKLabels] at h
  exact List.mem_dedup.mp ((List.perm_insertionSort _ _).mem_iff.mp
    (List.take_subset _ _ h))

theorem mem_typeFrequencies_labels {df : List Row} {top_k : Nat} {lab : String} :
    lab ∈ (type_frequencies df top_k).map (fun e => e.1.2) ↔
      lab ∈ topKLabels df top_k ∧ lab ∈ allLabels df := by
  simp only [type_frequencies]
  constructor
  · intro h
    obtain ⟨e, he, rfl⟩ := List.mem_map.mp h
    obtain ⟨k, hk, rfl⟩ := List.mem_map.mp he
    have hk2 := List.mem_dedup.mp hk
    obtain ⟨p, hp, rfl⟩ := List.mem_map.mp hk2
    have hp2 := List.mem_filter.mp hp
    refine ⟨of_decide_eq_true hp2.2, ?_⟩
    have := mem_explodeTypes.mp hp2.1
    exact List.mem_flatMap.mpr ⟨p.1, this.1, this.2⟩
  · intro ⟨htop, hall⟩
    obtain ⟨r, hr, ht⟩ := List.mem_flatMap.mp hall
    have hex : ((r, lab) : Row × String) ∈ explodeTypes df :=
      mem_explodeTypes.mpr ⟨hr, ht⟩
    have hfil : ((r, lab) : Row × String) ∈
        (explodeTypes df).filter (fun p => decide (p.2 ∈ topKLabels df top_k)) :=
      List.mem_filter.mpr ⟨hex, decide_eq_true htop⟩
    have hkey : ((rowPeriod r, lab) : (Nat × Nat) × String) ∈
        ((explodeTypes df).filter
          (fun p => decide (p.2 ∈ topKLabels df top_k))).map
          (fun p => (rowPeriod p.1, p.2)) :=
      List.mem_map.mpr ⟨(r, lab), hfil, rfl⟩
    refine List.mem_map.mpr ⟨((rowPeriod r, lab),
      (((explodeTypes df).filter
        (fun p => decide (p.2 ∈ topKLabels df top_k))).map
        (fun p => (rowPeriod p.1, p.2))).count (rowPeriod r, lab)), ?_, rfl⟩
    exact List.mem_map.mpr ⟨(rowPeriod r, lab), List.mem_dedup.mpr hkey, rfl⟩

/-- C9: whenever more than 10 distinct taxonomy labels occur across the
rows, the type series carries at most 10 distinct labels; the global top-10
list has exactly 10 entries; a label appears in the series exactly when it
is one of those top-10; and every selected label's total count is at least
every unselected label's total count. -/
theorem c9_topk_restriction :
    ∀ df : List Row, 10 < (allLabels df).dedup.length →
      ((type_frequencies df 10).map (fun e => e.1.2)).dedup.length ≤ 10 ∧
      (topKLabels df 10).length = 10 ∧
      (∀ lab : String,
        lab ∈ (type_frequencies df 10).map (fun e => e.1.2) ↔
        lab ∈ topKLabels df 10) ∧
      (∀ a ∈ topKLabels df 10, ∀ b ∈ allLabels df, b ∉ topKLabels df 10 →
        (allLabels df).count b ≤ (allLabels df).count a) := by
  intro df hgt
  have hlen : (topKLabels df 10).length = 10 := by
    rw [topKLabels, List.length_take,
      (List.perm_insertionSort _ _).length_eq]
    omega
  have hiff : ∀ lab : String,
      lab ∈ (type_frequencies df 10).map (fun e => e.1.2) ↔
      lab ∈ topKLabels df 10 := by
    intro lab
    rw [mem_typeFrequencies_labels]
    exact ⟨fun h => h.1, fun h => ⟨h, topKLabels_subset df 10 lab h⟩⟩
  refine ⟨?_, hlen, hiff, ?_⟩
  · have hsub : ((type_frequencies df 10).map (fun e => e.1.2)).dedup ⊆
        topKLabels df 10 := by
      intro lab hl
      exact (hiff lab).mp (List.mem_dedup.mp hl)
    calc ((type_frequencies df 10).map (fun e => e.1.2)).dedup.length
        ≤ (topKLabels df 10).length :=
          (List.Nodup.subperm (List.nodup_dedup _) hsub).length_le
      _ = 10 := hlen
  · intro a ha b hb hbtop
    have hsorted := sorted_countGe (allLabels df) (allLabels df).dedup
    have hb2 : b ∈ List.insertionSort
        (fun a b => (allLabels df).count b ≤ (allLabels df).count a)
        (allLabels df).dedup :=
      (List.perm_insertionSort _ _).mem_iff.mpr (List.mem_dedup.mpr hb)
    rw [← List.take_append_drop 10 (List.insertionSort
      (fun a b => (allLabels df).count b ≤ (allLabels df).count a)
      (allLabels df).dedup)] at hsorted
    have hpair := (List.pairwise_append.mp hsorted).2.2
    have hb3 : b ∈ ((List.insertionSort
        (fun a b => (allLabels df).count b ≤ (allLabels df).count a)
        (allLabels df).dedup).take 10 ++
      (List.insertionSort
        (fun a b => (allLabels df).count b ≤ (allLabels df).count a)
        (allLabels df).dedup).drop 10) := by
      rw [List.take_append_drop]
      exact hb2
    rcases List.mem_append.mp hb3 with h | h
    · exact absurd h hbtop
    · exact hpair a ha b h

/-- Witness for C9: the eleven-label fixture keeps exactly ten labels. -/
theorem c9_witness :
    ((type_frequencies rows9w 10).map (fun e => e.1.2)).dedup.length ≤ 10 ∧
    (topKLabels rows9w 10).length = 10 :=
  ⟨(c9_topk_restriction rows9w (by with_unfolding_all decide)).1,
   (c9_topk_restriction rows9w (by with_unfolding_all decide)).2.1⟩

/-! ### Claim C10 -/

/-- C10: the local-peak marker flags position `i` exactly when `i` is
interior and its value strictly exceeds both neighbours; the first and last
positions are never flagged; and a strictly increasing series has no
flagged position at all. -/
theorem c10_local_peaks :
    ∀ vs : List ℚ,
      (mark_local_peaks vs).length = vs.length ∧
      (∀ i : Nat, i < vs.length →
        ((mark_local_peaks vs).getD i false = true ↔
          (1 ≤ i ∧ i + 1 < vs.length ∧
            vs.getD (i - 1) 0 < vs.getD i 0 ∧
            vs.getD (i + 1) 0 < vs.getD i 0))) ∧
      (0 < vs.length →
        (mark_local_peaks vs).getD 0 false = false ∧
        (mark_local_peaks vs).getD (vs.length - 1) false = false) ∧
      (List.Chain' (· < ·) vs →
        ∀ i : Nat, (mark_local_peaks vs).getD i false = false) := by
  intro vs
  have hlen : (mark_local_peaks vs).length = vs.length := by
    simp [mark_local_peaks]
  have hget : ∀ i : Nat, i < vs.length →
      (mark_local_peaks vs).getD i false =
        (decide (1 ≤ i) && decide (i + 1 < vs.length) &&
          decide (vs.getD (i - 1) 0 < vs.getD i 0) &&
          decide (vs.getD (i + 1) 0 < vs.getD i 0)) := by
    intro i hi
    have hi' : i < (mark_local_peaks vs).length := hlen ▸ hi
    rw [List.getD_eq_getElem _ _ hi']
    simp [mark_local_peaks]
  refine ⟨hlen, ?_, ?_, ?_⟩
  · intro i hi
    rw [hget i hi]
    simp [and_assoc]
  · intro hpos
    constructor
    · rw [hget 0 hpos]
      simp
    · rw [hget (vs.length - 1) (by omega)]
      have : ¬(vs.length - 1 + 1 < vs.length) := by omega
      simp [this]
  · intro hchain i
    by_cases hi : i < vs.length
    · rw [hget i hi]
      by_cases hint : 1 ≤ i ∧ i + 1 < vs.length
      · have hmono : vs.getD i 0 < vs.getD (i + 1) 0 := by
          have h1 : i < vs.length := hi
          have h2 : i + 1 < vs.length := hint.2
          rw [List.getD_eq_getElem _ _ h1, List.getD_eq_getElem _ _ h2]
          exact List.chain'_iff_get.mp hchain i (by omega)
        have hd : decide (vs.getD (i + 1) 0 < vs.getD i 0) = false :=
          decide_eq_false (not_lt_of_lt hmono)
        rw [hd]
        simp
      · rcases not_and_or.mp hint with h | h
        · simp [h]
        · simp [h]
    · rw [List.getD_eq_default]
      rw [hlen]
      omega

/-- Witness for C10: the strictly increasing three-point series has no
flagged interior point. -/
theorem c10_witness : (mark_local_peaks [1, 2, 3]).getD 1 false = false :=
  (c10_local_peaks [1, 2, 3]).2.2.2 (by norm_num [List.chain'_cons]) 1

end EventDash
